import Mathlib

/-!
Verification of the FocusTasks store (`src/app.js`).

The development shallowly embeds the JavaScript program:

* `JVal` models JavaScript/JSON values (objects and arrays are modelled by
  the mutually inductive `JFields`/`JItems` so that structural recursion and
  induction are available).
* `Task` mirrors the record `{ id, title, done }` that the store keeps in its
  `state` array.  Field values are arbitrary `JVal`s, because the source never
  validates `id` and `title` and only coerces `done` through `!!`/`!`.
* `World` carries the external state a store interacts with: the content of
  `localStorage` (one `Stored` per key), whether `setItem` succeeds
  (`writeOk`, e.g. quota), and counters for `console.warn` / `console.error`.
* `createStore`, `addOp`, `toggleOp`, `removeOp`, `listFn` embed the closure
  API of `createStore` in `src/app.js`; `summarize` embeds the analytics
  function with rational arithmetic for the percentage.
* A small object-heap model (`Heap`) captures the allocation behaviour of
  `list()` (`state.map(item => ({...}))` builds fresh records), which is what
  snapshot independence is about.

Everything lives in the `App` namespace, mirroring `src/app.js`.
-/

namespace App

/- JavaScript values as far as the program manipulates them.  The value
`undefined` is the result of reading a missing property; numbers are modelled
as integers, which covers every value the claims mention. -/
mutual
/-- JavaScript values: the inductive of the mutual triple. -/
inductive JVal where
  | undefined
  | null
  | bool (b : Bool)
  | num (n : Int)
  | str (s : String)
  | arr (xs : JItems)
  | obj (fs : JFields)
  deriving DecidableEq
inductive JItems where
  | nil
  | cons (hd : JVal) (tl : JItems)
  deriving DecidableEq
inductive JFields where
  | nil
  | cons (key : String) (val : JVal) (tl : JFields)
  deriving DecidableEq
end

/-- Turn a `JItems` spine into a `List` of values. -/
def JItems.toList : JItems → List JVal
  | .nil => []
  | .cons v tl => v :: tl.toList

/-- Build a `JItems` spine from a `List` of values. -/
def JItems.ofList : List JVal → JItems
  | [] => .nil
  | v :: tl => .cons v (JItems.ofList tl)

/-- First binding of `key` in an object's field list, `undefined` when absent —
the semantics of property lookup `o[key]` on a plain object. -/
def JFields.get : JFields → String → JVal
  | .nil, _ => .undefined
  | .cons k v tl, key => if k = key then v else tl.get key

/-- JavaScript truthiness: the coercion performed by `!!v` (and the test
`if (raw)`). -/
def toBool : JVal → Bool
  | .undefined => false
  | .null => false
  | .bool b => b
  | .num n => n ≠ 0
  | .str s => s ≠ ""
  | .arr _ => true
  | .obj _ => true

/-- Strict equality `===` as the program uses it (`it.id === id`).  On
primitives it is value equality; on objects and arrays it is reference
equality, and since the program never passes the very same reference both as
a stored id and as the lookup argument, those comparisons are `false`. -/
def seq : JVal → JVal → Bool
  | .undefined, .undefined => true
  | .null, .null => true
  | .bool a, .bool b => a == b
  | .num a, .num b => a == b
  | .str a, .str b => a == b
  | _, _ => false

/-- Property access `v[key]`: throws a `TypeError` on `null`/`undefined`
(modelled by `Except.error`), yields `undefined` on primitives and on objects
without the key. -/
def getProp : JVal → String → Except Unit JVal
  | .undefined, _ => .error ()
  | .null, _ => .error ()
  | .obj fs, key => .ok (fs.get key)
  | _, _ => .ok .undefined

/-- The task records the store keeps in `state`.  The source stores `id` and
`title` verbatim and only `done` is produced by a boolean operator, so all
three fields are modelled as raw values. -/
structure Task where
  id : JVal
  title : JVal
  done : JVal
  deriving DecidableEq

instance : Inhabited Task := ⟨⟨.undefined, .undefined, .undefined⟩⟩

/-- One array element of the hydration `parsed.map(item => ({ id: item.id,
title: item.title, done: !!item.done }))`: the three property reads may throw
(on a `null` element), `done` is coerced through `!!`. -/
def decodeItem (v : JVal) : Except Unit Task :=
  match getProp v "id", getProp v "title", getProp v "done" with
  | .ok i, .ok t, .ok d => .ok ⟨i, t, .bool (toBool d)⟩
  | .error e, _, _ => .error e
  | _, .error e, _ => .error e
  | _, _, .error e => .error e

/-- The whole hydration map; an exception from any element aborts the map. -/
def decodeItems : JItems → Except Unit (List Task)
  | .nil => .ok []
  | .cons v tl =>
    match decodeItem v, decodeItems tl with
    | .ok t, .ok ts => .ok (t :: ts)
    | .error e, _ => .error e
    | _, .error e => .error e

/- Normalisation performed by a JSON.stringify / JSON.parse round trip. -/
mutual
/-- Normalisation of a value by `JSON.parse ∘ JSON.stringify`: `undefined`
inside an array becomes `null`, object fields whose value is `undefined` are
dropped, everything else survives unchanged.  Result `none` is a bare
`undefined` (which `stringify` would omit); it cannot occur for the state. -/
def jnorm : JVal → Option JVal
  | .undefined => none
  | .null => some .null
  | .bool b => some (.bool b)
  | .num n => some (.num n)
  | .str s => some (.str s)
  | .arr xs => some (.arr (jnormItems xs))
  | .obj fs => some (.obj (jnormFields fs))
def jnormItems : JItems → JItems
  | .nil => .nil
  | .cons v tl => .cons ((jnorm v).getD .null) (jnormItems tl)
def jnormFields : JFields → JFields
  | .nil => .nil
  | .cons k v tl =>
    match jnorm v with
    | some v' => .cons k v' (jnormFields tl)
    | none => jnormFields tl
end

/- Values free of undefined, the shape of every JSON.parse output. -/
mutual
/-- A value free of `undefined` — in particular every output of `JSON.parse`
is of this shape. -/
def undefFree : JVal → Bool
  | .undefined => false
  | .null => true
  | .bool _ => true
  | .num _ => true
  | .str _ => true
  | .arr xs => undefFreeItems xs
  | .obj fs => undefFreeFields fs
def undefFreeItems : JItems → Bool
  | .nil => true
  | .cons v tl => undefFree v && undefFreeItems tl
def undefFreeFields : JFields → Bool
  | .nil => true
  | .cons _ v tl => undefFree v && undefFreeFields tl
end

/-- What `JSON.stringify` makes of one state record
`{ id: t.id, title: t.title, done: t.done }`. -/
def encodeTask (t : Task) : JVal :=
  .obj (jnormFields (.cons "id" t.id (.cons "title" t.title
    (.cons "done" t.done .nil))))

/-- What `JSON.stringify(state)` makes of the whole state array. -/
def encodeState (st : List Task) : JVal :=
  .arr (JItems.ofList (st.map encodeTask))

/-- The value found at one storage key: absent, present but such that
`JSON.parse` throws, or present and parsing to `v`.  (A present empty string
is falsy and skipped by `if (raw)`, observably like `absent`.) -/
inductive Stored where
  | absent
  | invalid
  | value (v : JVal)

/-- The store's environment: `localStorage` content per key, whether
`setItem` currently succeeds (quota), and how often `console.warn` /
`console.error` have fired. -/
structure World where
  store : String → Stored
  writeOk : Bool
  warns : Nat
  errs : Nat

/-- The closure state of one `createStore` instance: its key and the private
`state` array. -/
structure Store where
  key : String
  state : List Task

/-- Hydration at construction (`src/app.js` lines 17–27): read the raw value,
parse it, and if it is an array map it to task records; any thrown exception
is caught, warned about, and leaves the empty state; a parsed non-array is
silently ignored. -/
def createStore (w : World) (key : String) : World × Store :=
  match w.store key with
  | .absent => (w, ⟨key, []⟩)
  | .invalid => ({ w with warns := w.warns + 1 }, ⟨key, []⟩)
  | .value v =>
    match v with
    | .arr xs =>
      match decodeItems xs with
      | .ok ts => (w, ⟨key, ts⟩)
      | .error _ => ({ w with warns := w.warns + 1 }, ⟨key, []⟩)
    | _ => (w, ⟨key, []⟩)

/-- The closure `persist` (`src/app.js` lines 29–35): serialize the state and overwrite
the key; a failing `setItem` is caught and logged via `console.error` and
leaves the storage unchanged. -/
def persistW (w : World) (key : String) (st : List Task) : World :=
  if w.writeOk then
    { w with store := fun k => if k = key then .value (encodeState st) else w.store k }
  else
    { w with errs := w.errs + 1 }

/-- The operation `list()` (`src/app.js` line 38): a fresh array of fresh records carrying
the same field values. -/
def listFn (st : List Task) : List Task :=
  st.map (fun t => ⟨t.id, t.title, t.done⟩)

/-- The state update of `add` (`src/app.js` line 42): append one record with
`done` coerced through `!!`. -/
def addSt (st : List Task) (task : Task) : List Task :=
  st ++ [⟨task.id, task.title, .bool (toBool task.done)⟩]

/-- The state update of `toggle` (`src/app.js` line 48): map every record to
a copy, negating `done` on an `===` id match. -/
def toggleSt (st : List Task) (id : JVal) : List Task :=
  st.map (fun it =>
    if seq it.id id then ⟨it.id, it.title, .bool (!toBool it.done)⟩
    else ⟨it.id, it.title, it.done⟩)

/-- The state update of `remove` (`src/app.js` line 54): keep the records
whose id does not `===`-match. -/
def removeSt (st : List Task) (id : JVal) : List Task :=
  st.filter (fun it => !seq it.id id)

/-- The operation `add` (`src/app.js` lines 40–45): mutate, persist, return a
snapshot. -/
def addOp (w : World) (s : Store) (task : Task) : World × Store × List Task :=
  let st := addSt s.state task
  (persistW w s.key st, ⟨s.key, st⟩, listFn st)

/-- The operation `toggle` (`src/app.js` lines 47–51). -/
def toggleOp (w : World) (s : Store) (id : JVal) : World × Store × List Task :=
  let st := toggleSt s.state id
  (persistW w s.key st, ⟨s.key, st⟩, listFn st)

/-- The operation `remove` (`src/app.js` lines 53–57). -/
def removeOp (w : World) (s : Store) (id : JVal) : World × Store × List Task :=
  let st := removeSt s.state id
  (persistW w s.key st, ⟨s.key, st⟩, listFn st)

/-- The analytics result `{ active, done, pct }`; the percentage is a
rational, modelling the source's real-number arithmetic. -/
structure Summary where
  active : Nat
  done : Nat
  pct : ℚ
  deriving DecidableEq

/-- The analytics function `summarize` (`src/app.js` lines 88–94): two truthiness filters and
`Math.round((done/total)*1000)/10`; `Math.round x = ⌊x + 1/2⌋`, which is
exactly Mathlib's `round`. -/
def summarize (tasks : List Task) : Summary :=
  let active := (tasks.filter (fun t => !toBool t.done)).length
  let done := (tasks.filter (fun t => toBool t.done)).length
  let total := active + done
  let pct : ℚ := if total = 0 then 0 else (round ((done : ℚ) / total * 1000) : ℚ) / 10
  ⟨active, done, pct⟩

/-- Object heap for reference-semantics reasoning about `list()`: addresses
are indices into `objs`, allocation appends at the end. -/
structure Heap where
  objs : List Task

/-- Read the record at an address (`none` for a dangling address). -/
def readH (h : Heap) (a : Nat) : Option Task :=
  h.objs[a]?

/-- Mutate the record at an address in place (a snapshot consumer assigning
to `snap[i].done`, replacing `snap[i]`, and so on). -/
def writeH (h : Heap) (a : Nat) (t : Task) : Heap :=
  ⟨h.objs.set a t⟩

/-- The record literal `({ id: item.id, title: item.title, done: item.done })`
built by `list()` for each element. -/
def copyTask (t : Task) : Task :=
  ⟨t.id, t.title, t.done⟩

/-- The operation `list()` under reference semantics: the store's `state` is
a list of addresses, and `state.map(item => ({...}))` allocates one fresh
record per address, copying the field values, and returns the fresh
addresses (a fresh array). -/
def listAllocH (h : Heap) (addrs : List Nat) : Heap × List Nat :=
  (⟨h.objs ++ addrs.map (fun a => copyTask ((readH h a).getD default))⟩,
   List.range' h.objs.length addrs.length)

/-- Reading the appended block of an extended heap through the fresh
addresses recovers the appended records. -/
theorem range'_map_getElem?_append {α : Type} (post pre : List α) :
    (List.range' pre.length post.length).map (fun b => (pre ++ post)[b]?) =
      post.map some := by
  induction post generalizing pre with
  | nil => simp
  | cons x xs ih =>
    rw [List.length_cons, List.range'_succ, List.map_cons, List.map_cons]
    refine congrArg₂ List.cons ?_ ?_
    · rw [List.getElem?_append_right (Nat.le_refl _), Nat.sub_self]
      simp
    · have h1 : pre ++ x :: xs = (pre ++ [x]) ++ xs := by
        rw [List.append_cons]
      have h2 : pre.length + 1 = (pre ++ [x]).length := by
        simp
      rw [h1, h2]
      exact ih (pre ++ [x])

/-- Length of a boolean partition of a list. -/
theorem filter_partition {α : Type} (q : α → Bool) (l : List α) :
    (l.filter (fun a => !q a)).length + (l.filter q).length = l.length := by
  induction l with
  | nil => rfl
  | cons x xs ih =>
    by_cases h : q x = true <;> simp [List.filter_cons, h] <;> omega

/-- Copying every field of a task is the identity on its value. -/
theorem copyTask_eq (t : Task) : copyTask t = t :=
  rfl

/-- The value content of a `list()` snapshot is the state itself. -/
theorem listFn_eq (st : List Task) : listFn st = st :=
  List.map_id st

/-- C2: `summarize` is a pure function of its snapshot argument: `active`
counts the tasks that are not done, `done` counts the done ones, the two
partition the list, `pct` is `round(done/total*1000)/10` for nonempty input
and `0` for the empty one; on `[done,done,active]` it yields
`{active := 1, done := 2, pct := 66.7}`, on `[]` it yields zeroes, and on a
single active task it yields `{active := 1, done := 0, pct := 0}`. -/
theorem claim_C2 (ts : List Task) :
    (summarize ts).active = ts.countP (fun t => !toBool t.done) ∧
    (summarize ts).done = ts.countP (fun t => toBool t.done) ∧
    (summarize ts).active + (summarize ts).done = ts.length ∧
    (summarize ts).pct = (if ts.length = 0 then (0 : ℚ) else
      (round ((ts.countP (fun t => toBool t.done) : ℚ) / (ts.length : ℚ) * 1000) : ℚ) / 10) ∧
    summarize [⟨.str "1", .str "a", .bool true⟩, ⟨.str "2", .str "b", .bool true⟩,
        ⟨.str "3", .str "c", .bool false⟩] = ⟨1, 2, (667 : ℚ) / 10⟩ ∧
    summarize [] = ⟨0, 0, 0⟩ ∧
    summarize [⟨.str "1", .str "a", .bool false⟩] = ⟨1, 0, 0⟩ := by
  have hpart := filter_partition (fun t => toBool t.done) ts
  refine ⟨?_, ?_, ?_, ?_, ?_, ?_, ?_⟩
  · simp [summarize, List.countP_eq_length_filter]
  · simp [summarize, List.countP_eq_length_filter]
  · simpa [summarize] using hpart
  · simp only [summarize, List.countP_eq_length_filter]
    rw [hpart]
  · simp [summarize, toBool, List.filter, Summary.mk.injEq]
    norm_num [round_eq]
  · simp [summarize]
  · simp [summarize, toBool, List.filter]

/-- C3: insertion order is preserved: `add` appends at the end, `toggle`
keeps every task's position, id and title (only flipping `done` on a match),
`remove` yields a sublist of the original state; in particular
`add A; add B; toggle A.id` leaves the order `[A, B]`. -/
theorem claim_C3 (st : List Task) (t : Task) (id : JVal) :
    addSt st t = st ++ [⟨t.id, t.title, .bool (toBool t.done)⟩] ∧
    (toggleSt st id).map (fun x => (x.id, x.title)) =
      st.map (fun x => (x.id, x.title)) ∧
    (toggleSt st id).length = st.length ∧
    List.Sublist (removeSt st id) st ∧
    toggleSt (addSt (addSt [] ⟨.str "a", .str "A", .bool false⟩)
        ⟨.str "b", .str "B", .bool false⟩) (.str "a") =
      [⟨.str "a", .str "A", .bool true⟩, ⟨.str "b", .str "B", .bool false⟩] := by
  refine ⟨rfl, ?_, by simp [toggleSt], List.filter_sublist _, by decide⟩
  simp only [toggleSt, List.map_map]
  refine List.map_congr_left ?_
  intro a _
  by_cases h : seq a.id id = true <;> simp [h]

/-- Toggling an id that matches no task maps every record to an identical
copy. -/
theorem toggleSt_no_match (st : List Task) (id : JVal)
    (h : ∀ t ∈ st, seq t.id id = false) : toggleSt st id = st := by
  unfold toggleSt
  have hc : st.map (fun it =>
      if seq it.id id then ⟨it.id, it.title, .bool (!toBool it.done)⟩
      else (⟨it.id, it.title, it.done⟩ : Task)) = st.map (fun x => x) :=
    List.map_congr_left (fun a ha => by rw [h a ha]; simp)
  rw [hc]
  simp

/-- C7: toggling a missing id is a no-op on the collection — the returned
snapshot equals the pre-call `list()` result and the state is unchanged —
yet `persist` still runs: on a healthy write the key is overwritten with the
serialized state, on a failing write `console.error` fires. -/
theorem claim_C7 (w : World) (s : Store) (id : JVal)
    (h : ∀ t ∈ s.state, seq t.id id = false) :
    (toggleOp w s id).2.2 = listFn s.state ∧
    (toggleOp w s id).2.1.state = s.state ∧
    (w.writeOk = true →
      (toggleOp w s id).1.store s.key = .value (encodeState s.state)) ∧
    (w.writeOk = false → (toggleOp w s id).1.errs = w.errs + 1) := by
  have hst := toggleSt_no_match s.state id h
  refine ⟨by simp [toggleOp, hst], by simp [toggleOp, hst], ?_, ?_⟩
  · intro hw
    simp [toggleOp, persistW, hw, hst]
  · intro hw
    simp [toggleOp, persistW, hw]

/-- Witness for C7 at a concrete one-task store and the foreign id "z". -/
theorem claim_C7_witness :
    (toggleOp ⟨fun _ => .absent, true, 0, 0⟩
        ⟨"k", [⟨.str "a", .str "A", .bool false⟩]⟩ (.str "z")).2.2 =
      listFn [⟨.str "a", .str "A", .bool false⟩] ∧
    (toggleOp ⟨fun _ => .absent, true, 0, 0⟩
        ⟨"k", [⟨.str "a", .str "A", .bool false⟩]⟩ (.str "z")).1.store "k" =
      .value (encodeState [⟨.str "a", .str "A", .bool false⟩]) ∧
    (toggleOp ⟨fun _ => .absent, false, 0, 0⟩
        ⟨"k", [⟨.str "a", .str "A", .bool false⟩]⟩ (.str "z")).1.errs = 0 + 1 :=
  ⟨(claim_C7 _ _ _ (by decide)).1,
   (claim_C7 _ _ _ (by decide)).2.2.1 rfl,
   (claim_C7 _ _ _ (by decide)).2.2.2 rfl⟩

/-- C6: when the storage write fails, every mutating operation still returns
normally with the mutated state and its snapshot, the storage is untouched,
and `console.error` fires — no rollback, no exception to the caller. -/
theorem claim_C6 (w : World) (s : Store) (t : Task) (id : JVal)
    (hw : w.writeOk = false) :
    ((addOp w s t).1.store = w.store ∧ (addOp w s t).1.errs = w.errs + 1 ∧
      (addOp w s t).2.1.state = addSt s.state t ∧
      (addOp w s t).2.2 = listFn (addSt s.state t)) ∧
    ((toggleOp w s id).1.store = w.store ∧
      (toggleOp w s id).1.errs = w.errs + 1 ∧
      (toggleOp w s id).2.1.state = toggleSt s.state id ∧
      (toggleOp w s id).2.2 = listFn (toggleSt s.state id)) ∧
    ((removeOp w s id).1.store = w.store ∧
      (removeOp w s id).1.errs = w.errs + 1 ∧
      (removeOp w s id).2.1.state = removeSt s.state id ∧
      (removeOp w s id).2.2 = listFn (removeSt s.state id)) := by
  refine ⟨⟨?_, ?_, rfl, rfl⟩, ⟨?_, ?_, rfl, rfl⟩, ⟨?_, ?_, rfl, rfl⟩⟩ <;>
    simp [addOp, toggleOp, removeOp, persistW, hw]

/-- Witness for C6 at a quota-exhausted world. -/
theorem claim_C6_witness :
    (addOp ⟨fun _ => .absent, false, 0, 0⟩ ⟨"k", []⟩
        ⟨.str "a", .str "A", .num 5⟩).1.errs = 0 + 1 ∧
    (addOp ⟨fun _ => .absent, false, 0, 0⟩ ⟨"k", []⟩
        ⟨.str "a", .str "A", .num 5⟩).2.1.state =
      addSt [] ⟨.str "a", .str "A", .num 5⟩ :=
  ⟨(claim_C6 _ _ ⟨.str "a", .str "A", .num 5⟩ .undefined rfl).1.2.1,
   (claim_C6 _ _ ⟨.str "a", .str "A", .num 5⟩ .undefined rfl).1.2.2.1⟩

/-- C8: duplicate ids are not validated: adding two tasks with the same id
leaves both in the collection (the new state is the old one plus both
records, and at least two records carry that id), and one `remove` of that
id removes every carrier, leaving exactly the non-matching part of the
original state. -/
theorem claim_C8 (w0 : World) (s0 : Store) (t1 t2 : Task) (i : String)
    (h1 : t1.id = .str i) (h2 : t2.id = .str i) :
    (addOp (addOp w0 s0 t1).1 (addOp w0 s0 t1).2.1 t2).2.1.state =
      s0.state ++ [⟨t1.id, t1.title, .bool (toBool t1.done)⟩,
        ⟨t2.id, t2.title, .bool (toBool t2.done)⟩] ∧
    2 ≤ ((addOp (addOp w0 s0 t1).1 (addOp w0 s0 t1).2.1 t2).2.1.state.countP
      (fun t => seq t.id (.str i))) ∧
    (removeOp (addOp (addOp w0 s0 t1).1 (addOp w0 s0 t1).2.1 t2).1
        (addOp (addOp w0 s0 t1).1 (addOp w0 s0 t1).2.1 t2).2.1
        (.str i)).2.1.state =
      s0.state.filter (fun t => !seq t.id (.str i)) ∧
    ((removeOp (addOp (addOp w0 s0 t1).1 (addOp w0 s0 t1).2.1 t2).1
        (addOp (addOp w0 s0 t1).1 (addOp w0 s0 t1).2.1 t2).2.1
        (.str i)).2.1.state.countP (fun t => seq t.id (.str i))) = 0 := by
  have hs1 : seq t1.id (.str i) = true := by rw [h1]; simp [seq]
  have hs2 : seq t2.id (.str i) = true := by rw [h2]; simp [seq]
  refine ⟨?_, ?_, ?_, ?_⟩
  · simp [addOp, addSt]
  · simp [addOp, addSt, List.countP_append, List.countP_cons, hs1, hs2]
  · simp [addOp, removeOp, addSt, removeSt, List.filter_append, hs1, hs2]
  · rw [List.countP_eq_zero]
    intro a ha
    simp only [removeOp, removeSt] at ha
    have := List.of_mem_filter ha
    simpa using this

/-- Witness for C8: two tasks with id "x" added to an empty store over a
fresh key, then removed at once. -/
theorem claim_C8_witness :
    (addOp (addOp ⟨fun _ => .absent, true, 0, 0⟩ ⟨"k", []⟩
          ⟨.str "x", .str "A", .bool false⟩).1
        (addOp ⟨fun _ => .absent, true, 0, 0⟩ ⟨"k", []⟩
          ⟨.str "x", .str "A", .bool false⟩).2.1
        ⟨.str "x", .str "B", .num 3⟩).2.1.state =
      [] ++ [⟨.str "x", .str "A", .bool (toBool (.bool false))⟩,
        ⟨.str "x", .str "B", .bool (toBool (.num 3))⟩] ∧
    ((removeOp (addOp (addOp ⟨fun _ => .absent, true, 0, 0⟩ ⟨"k", []⟩
            ⟨.str "x", .str "A", .bool false⟩).1
          (addOp ⟨fun _ => .absent, true, 0, 0⟩ ⟨"k", []⟩
            ⟨.str "x", .str "A", .bool false⟩).2.1
          ⟨.str "x", .str "B", .num 3⟩).1
        (addOp (addOp ⟨fun _ => .absent, true, 0, 0⟩ ⟨"k", []⟩
            ⟨.str "x", .str "A", .bool false⟩).1
          (addOp ⟨fun _ => .absent, true, 0, 0⟩ ⟨"k", []⟩
            ⟨.str "x", .str "A", .bool false⟩).2.1
          ⟨.str "x", .str "B", .num 3⟩).2.1
        (.str "x")).2.1.state.countP (fun t => seq t.id (.str "x"))) = 0 := by
  have h := claim_C8 ⟨fun _ => .absent, true, 0, 0⟩ ⟨"k", []⟩
    ⟨.str "x", .str "A", .bool false⟩ ⟨.str "x", .str "B", .num 3⟩ "x" rfl rfl
  exact ⟨h.1, h.2.2.2⟩

/-- C4 fails as stated: with the key holding the serialized number `5` —
present, valid JSON, but not an array — construction does fall back to the
empty collection, but no warning is logged: the source's `if
(Array.isArray(parsed))` has no `else`, so the claimed warning never
happens. -/
theorem claim_C4_counterexample :
    (createStore ⟨fun _ => .value (.num 5), true, 0, 0⟩ "k").2.state = [] ∧
    ¬ ((createStore ⟨fun _ => .value (.num 5), true, 0, 0⟩ "k").1.warns =
        (⟨fun _ => .value (.num 5), true, 0, 0⟩ : World).warns + 1) := by
  refine ⟨rfl, ?_⟩
  intro hcon
  have h0 : (createStore ⟨fun _ => .value (.num 5), true, 0, 0⟩ "k").1.warns
      = 0 := rfl
  rw [h0] at hcon
  exact absurd hcon (by omega)

/-- C4 amended: construction never fails (all four cases below return); an
absent key yields the empty collection silently; an unparsable value yields
the empty collection plus a warning; a parsed non-array value yields the
empty collection silently — no warning; an array whose hydration throws
(a `null` element) yields the empty collection plus a warning. -/
theorem claim_C4_amended (w1 w2 w3 w4 : World) (k : String) (v : JVal)
    (xs : JItems)
    (h1 : w1.store k = .absent)
    (h2 : w2.store k = .invalid)
    (h3 : w3.store k = .value v) (hv : ∀ ys, v ≠ .arr ys)
    (h4 : w4.store k = .value (.arr xs)) (hxs : decodeItems xs = .error ()) :
    ((createStore w1 k).2.state = [] ∧ (createStore w1 k).1.warns = w1.warns) ∧
    ((createStore w2 k).2.state = [] ∧
      (createStore w2 k).1.warns = w2.warns + 1) ∧
    ((createStore w3 k).2.state = [] ∧ (createStore w3 k).1.warns = w3.warns) ∧
    ((createStore w4 k).2.state = [] ∧
      (createStore w4 k).1.warns = w4.warns + 1) := by
  refine ⟨?_, ?_, ?_, ?_⟩
  · simp [createStore, h1]
  · simp [createStore, h2]
  · cases v with
    | arr ys => exact absurd rfl (hv ys)
    | undefined => simp [createStore, h3]
    | null => simp [createStore, h3]
    | bool b => simp [createStore, h3]
    | num n => simp [createStore, h3]
    | str s => simp [createStore, h3]
    | obj fs => simp [createStore, h3]
  · simp [createStore, h4, hxs]

/-- Witness for the amended C4: the four storage shapes at concrete
worlds — absent, invalid, the number `5`, and the array `[null]`. -/
theorem claim_C4_witness :
    ((createStore ⟨fun _ => .absent, true, 0, 0⟩ "k").2.state = [] ∧
      (createStore ⟨fun _ => .absent, true, 0, 0⟩ "k").1.warns = 0) ∧
    ((createStore ⟨fun _ => .invalid, true, 0, 0⟩ "k").2.state = [] ∧
      (createStore ⟨fun _ => .invalid, true, 0, 0⟩ "k").1.warns = 0 + 1) ∧
    ((createStore ⟨fun _ => .value (.num 5), true, 5, 0⟩ "k").2.state = [] ∧
      (createStore ⟨fun _ => .value (.num 5), true, 5, 0⟩ "k").1.warns = 5) ∧
    ((createStore ⟨fun _ => .value (.arr (.cons .null .nil)), true, 0, 0⟩
        "k").2.state = [] ∧
      (createStore ⟨fun _ => .value (.arr (.cons .null .nil)), true, 0, 0⟩
        "k").1.warns = 0 + 1) :=
  claim_C4_amended ⟨fun _ => .absent, true, 0, 0⟩ ⟨fun _ => .invalid, true, 0, 0⟩
    ⟨fun _ => .value (.num 5), true, 5, 0⟩
    ⟨fun _ => .value (.arr (.cons .null .nil)), true, 0, 0⟩ "k" (.num 5)
    (.cons .null .nil) rfl rfl rfl (fun _ h => JVal.noConfusion h) rfl rfl

/-- Shape of a successfully decoded hydration element: `done` is a strict
boolean and `id`/`title` are the raw property values of the stored record,
taken verbatim. -/
theorem decodeItem_spec (v : JVal) (t : Task) (h : decodeItem v = .ok t) :
    (∃ b, t.done = .bool b) ∧
    t.id = (getProp v "id").toOption.getD .undefined ∧
    t.title = (getProp v "title").toOption.getD .undefined := by
  cases hi : getProp v "id" with
  | error e => simp [decodeItem, hi] at h
  | ok i =>
    cases hti : getProp v "title" with
    | error e => simp [decodeItem, hi, hti] at h
    | ok ti =>
      cases hdn : getProp v "done" with
      | error e => simp [decodeItem, hi, hti, hdn] at h
      | ok d =>
        have ht : t = ⟨i, ti, .bool (toBool d)⟩ := by
          simp [decodeItem, hi, hti, hdn] at h
          exact h.symm
        subst ht
        simp [hi, hti, Except.toOption]

/-- Shape of a successful hydration map: nothing is discarded (the lengths
agree), every `done` is a strict boolean, and every `id`/`title` is the raw
stored property value. -/
theorem decodeItems_spec : ∀ (xs : JItems) (ts : List Task),
    decodeItems xs = .ok ts →
    ts.length = xs.toList.length ∧
    (∀ t ∈ ts, ∃ b, t.done = .bool b) ∧
    ts.map (fun t => (t.id, t.title)) = xs.toList.map (fun v =>
      ((getProp v "id").toOption.getD .undefined,
       (getProp v "title").toOption.getD .undefined))
  | .nil, ts, hd => by
    simp [decodeItems] at hd
    subst hd
    simp [JItems.toList]
  | .cons v tl, ts, hd => by
    cases hv : decodeItem v with
    | error e => simp [decodeItems, hv] at hd
    | ok t =>
      cases htl : decodeItems tl with
      | error e => simp [decodeItems, hv, htl] at hd
      | ok ts' =>
        have hts : ts = t :: ts' := by
          simp [decodeItems, hv, htl] at hd
          exact hd.symm
        subst hts
        obtain ⟨l1, l2, l3⟩ := decodeItems_spec tl ts' htl
        obtain ⟨d1, d2, d3⟩ := decodeItem_spec v t hv
        refine ⟨by simp [JItems.toList, l1], ?_, ?_⟩
        · intro x hx
          rcases List.mem_cons.mp hx with rfl | hx'
          · exact d1
          · exact l2 x hx'
        · simp [JItems.toList, l3, d2, d3]

/-- C9 fails as stated: hydrating the stored array
`[{"id": 7, "done": "x"}]` puts the task
`{id: 7, title: undefined, done: true}` in the collection — its `id` is a
number and its `title` is `undefined`, not strings, so the hydrated record
does not conform to `{id: string, title: string, done: boolean}`. -/
theorem claim_C9_counterexample :
    (createStore ⟨fun _ => .value (.arr (.cons (.obj (.cons "id" (.num 7)
        (.cons "done" (.str "x") .nil))) .nil)), true, 0, 0⟩ "k").2.state =
      [⟨.num 7, .undefined, .bool true⟩] ∧
    (∀ s : String, (JVal.num 7) ≠ .str s) :=
  ⟨rfl, fun _ h => JVal.noConfusion h⟩

/-- C9 amended: when the stored value parses to an array and no element is
`null` (that case aborts the whole hydration), each record is mapped — not
validated: `done` is coerced to a strict boolean via truthiness, while `id`
and `title` are taken verbatim (possibly non-strings or `undefined`), and no
entry is discarded. -/
theorem claim_C9_amended (w : World) (k : String) (xs : JItems)
    (ts : List Task)
    (h : w.store k = .value (.arr xs)) (hd : decodeItems xs = .ok ts) :
    (createStore w k).2.state = ts ∧
    ts.length = xs.toList.length ∧
    (∀ t ∈ ts, ∃ b, t.done = .bool b) ∧
    ts.map (fun t => (t.id, t.title)) = xs.toList.map (fun v =>
      ((getProp v "id").toOption.getD .undefined,
       (getProp v "title").toOption.getD .undefined)) := by
  refine ⟨by simp [createStore, h, hd], decodeItems_spec xs ts hd⟩

/-- Witness for the amended C9: a two-element stored array — a loose record
`{"id": "a", "title": "T", "done": 0}` and the bare number `9` — hydrates to
two tasks, the second with `undefined` id and title. -/
theorem claim_C9_witness :
    (createStore ⟨fun _ => .value (.arr (.cons (.obj (.cons "id" (.str "a")
        (.cons "title" (.str "T") (.cons "done" (.num 0) .nil))))
        (.cons (.num 9) .nil))), true, 0, 0⟩ "k").2.state =
      [⟨.str "a", .str "T", .bool false⟩, ⟨.undefined, .undefined, .bool false⟩] ∧
    ([⟨.str "a", .str "T", .bool false⟩,
        (⟨.undefined, .undefined, .bool false⟩ : Task)].length =
      (JItems.cons (.obj (.cons "id" (.str "a") (.cons "title" (.str "T")
        (.cons "done" (.num 0) .nil)))) (.cons (.num 9) .nil)).toList.length) ∧
    (∀ t ∈ [⟨.str "a", .str "T", .bool false⟩,
        (⟨.undefined, .undefined, .bool false⟩ : Task)], ∃ b, t.done = .bool b) ∧
    ([⟨.str "a", .str "T", .bool false⟩,
        (⟨.undefined, .undefined, .bool false⟩ : Task)].map (fun t => (t.id, t.title)) =
      (JItems.cons (.obj (.cons "id" (.str "a") (.cons "title" (.str "T")
        (.cons "done" (.num 0) .nil)))) (.cons (.num 9) .nil)).toList.map
        (fun v => ((getProp v "id").toOption.getD .undefined,
          (getProp v "title").toOption.getD .undefined))) :=
  claim_C9_amended ⟨fun _ => .value (.arr (.cons (.obj (.cons "id" (.str "a")
      (.cons "title" (.str "T") (.cons "done" (.num 0) .nil))))
      (.cons (.num 9) .nil))), true, 0, 0⟩ "k" _ _ rfl rfl

/-- Reachable configurations of the system: a construction from any world,
followed by any sequence of `add` / `toggle` / `remove` operations. -/
inductive Reach : World → Store → Prop where
  | init (w : World) (k : String) :
      Reach (createStore w k).1 (createStore w k).2
  | add (w : World) (s : Store) (t : Task) :
      Reach w s → Reach (addOp w s t).1 (addOp w s t).2.1
  | toggle (w : World) (s : Store) (id : JVal) :
      Reach w s → Reach (toggleOp w s id).1 (toggleOp w s id).2.1
  | remove (w : World) (s : Store) (id : JVal) :
      Reach w s → Reach (removeOp w s id).1 (removeOp w s id).2.1

/-- Hydration only produces strict-boolean `done` fields. -/
theorem createStore_done_bool (w : World) (k : String) :
    ∀ t ∈ (createStore w k).2.state, ∃ b, t.done = .bool b := by
  cases hw : w.store k with
  | absent => simp [createStore, hw]
  | invalid => simp [createStore, hw]
  | value v =>
    cases v with
    | arr xs =>
      cases hd : decodeItems xs with
      | ok ts => simpa [createStore, hw, hd] using (decodeItems_spec xs ts hd).2.1
      | error e => simp [createStore, hw, hd]
    | undefined => simp [createStore, hw]
    | null => simp [createStore, hw]
    | bool b => simp [createStore, hw]
    | num n => simp [createStore, hw]
    | str s => simp [createStore, hw]
    | obj fs => simp [createStore, hw]

/-- In every reachable state, every task's `done` is a strict boolean. -/
theorem reach_done_bool (w : World) (s : Store) (h : Reach w s) :
    ∀ t ∈ s.state, ∃ b, t.done = .bool b := by
  induction h with
  | init w k => exact createStore_done_bool w k
  | add w s t _ ih =>
    intro x hx
    simp only [addOp, addSt] at hx
    rcases List.mem_append.mp hx with h1 | h1
    · exact ih x h1
    · rw [List.mem_singleton.mp h1]
      exact ⟨toBool t.done, rfl⟩
  | toggle w s id _ ih =>
    intro x hx
    simp only [toggleOp, toggleSt] at hx
    rcases List.mem_map.mp hx with ⟨a, ha, rfl⟩
    by_cases hm : seq a.id id = true
    · simp [hm]
    · simp only [hm, if_neg, Bool.false_eq_true, if_false]
      exact ih a ha
  | remove w s id _ ih =>
    intro x hx
    simp only [removeOp, removeSt] at hx
    exact ih x (List.mem_of_mem_filter hx)

/-- C10: in every reachable store state the `done` field of every task in a
`list()` snapshot is a strict boolean — hydration and `add` coerce through
double negation and `toggle` negates — even when storage or the caller
supplied a non-boolean. -/
theorem claim_C10 (w : World) (s : Store) (h : Reach w s) :
    ∀ t ∈ listFn s.state, ∃ b, t.done = .bool b := by
  rw [listFn_eq]
  exact reach_done_bool w s h

/-- Witness for C10: storage holds `[{"done": 3}]` — a truthy non-boolean —
and the freshly constructed store's single snapshot task has `done = true`. -/
theorem claim_C10_witness :
    ∃ b, (⟨.undefined, .undefined, .bool true⟩ : Task).done = .bool b :=
  claim_C10 _ _
    (Reach.init ⟨fun _ => .value (.arr (.cons (.obj (.cons "done" (.num 3)
      .nil)) .nil)), true, 0, 0⟩ "k")
    ⟨.undefined, .undefined, .bool true⟩ (by decide)

/-- C5: snapshot independence under reference semantics.  Running `list()`
on a heap whose store addresses are all valid (1) returns fresh addresses
whose records carry the same values as the store's, (2) returns no address
aliasing a store address, and (3) mutating any snapshot record leaves every
store record — hence any subsequent `list()` result — unchanged. -/
theorem claim_C5 (h : Heap) (addrs : List Nat)
    (hv : ∀ a ∈ addrs, a < h.objs.length) :
    ((listAllocH h addrs).2.map (readH (listAllocH h addrs).1) =
      addrs.map (readH h)) ∧
    (∀ b ∈ (listAllocH h addrs).2, b ∉ addrs) ∧
    (∀ b ∈ (listAllocH h addrs).2, ∀ u : Task,
      addrs.map (readH (writeH (listAllocH h addrs).1 b u)) =
        addrs.map (readH h)) := by
  refine ⟨?_, ?_, ?_⟩
  · show (List.range' h.objs.length addrs.length).map
        (fun b => (h.objs ++
          addrs.map (fun a => copyTask ((readH h a).getD default)))[b]?) =
      addrs.map (fun a => h.objs[a]?)
    rw [show addrs.length =
        (addrs.map (fun a => copyTask ((readH h a).getD default))).length by
      simp]
    rw [range'_map_getElem?_append]
    rw [List.map_map]
    refine List.map_congr_left ?_
    intro a ha
    show some (copyTask ((h.objs[a]?).getD default)) = h.objs[a]?
    rw [List.getElem?_eq_getElem (hv a ha)]
    rfl
  · intro b hb hmem
    simp only [listAllocH] at hb
    rw [List.mem_range'_1] at hb
    exact absurd (hv b hmem) (Nat.not_lt.mpr hb.1)
  · intro b hb u
    simp only [listAllocH] at hb ⊢
    rw [List.mem_range'_1] at hb
    refine List.map_congr_left ?_
    intro a ha
    have hlt := hv a ha
    have hne : b ≠ a := by omega
    simp only [writeH, readH]
    rw [List.getElem?_set_ne hne]
    exact List.getElem?_append_left hlt

/-- Witness for C5: a one-task heap, the store owning address 0; `list()`
allocates address 1, which does not alias, and overwriting it leaves the
store's view unchanged. -/
theorem claim_C5_witness :
    ((listAllocH ⟨[⟨.str "a", .str "A", .bool false⟩]⟩ [0]).2.map
        (readH (listAllocH ⟨[⟨.str "a", .str "A", .bool false⟩]⟩ [0]).1) =
      [0].map (readH ⟨[⟨.str "a", .str "A", .bool false⟩]⟩)) ∧
    ((1 : Nat) ∉ ([0] : List Nat)) ∧
    ([0].map (readH (writeH (listAllocH ⟨[⟨.str "a", .str "A", .bool false⟩]⟩
        [0]).1 1 ⟨.str "a", .str "A", .bool true⟩)) =
      [0].map (readH ⟨[⟨.str "a", .str "A", .bool false⟩]⟩)) :=
  ⟨(claim_C5 ⟨[⟨.str "a", .str "A", .bool false⟩]⟩ [0] (by decide)).1,
   (claim_C5 ⟨[⟨.str "a", .str "A", .bool false⟩]⟩ [0] (by decide)).2.1 1
     (by decide),
   (claim_C5 ⟨[⟨.str "a", .str "A", .bool false⟩]⟩ [0] (by decide)).2.2 1
     (by decide) ⟨.str "a", .str "A", .bool true⟩⟩

/-- A field value that survives a stringify/parse round trip at its
position in a record: either it is itself a fixed point of normalisation, or
it is `undefined` — then stringify drops the field and rereading yields
`undefined` again.  Every value `JSON.parse` can produce (and every string)
qualifies. -/
def FieldRT (v : JVal) : Prop :=
  jnorm v = some v ∨ v = .undefined

instance FieldRT.dec (v : JVal) : Decidable (FieldRT v) :=
  if h : jnorm v = some v then .isTrue (.inl h)
  else if h2 : v = .undefined then .isTrue (.inr h2)
  else .isFalse (fun hc => hc.elim h h2)

/-- A state record as the store itself builds them: round-trippable `id` and
`title`, strict-boolean `done`. -/
def GoodTask (t : Task) : Prop :=
  FieldRT t.id ∧ FieldRT t.title ∧ ∃ b, t.done = .bool b

mutual
/-- A value without `undefined` is a fixed point of normalisation. -/
theorem undefFree_jnorm : ∀ v : JVal, undefFree v = true → jnorm v = some v
  | .null, _ => rfl
  | .bool _, _ => rfl
  | .num _, _ => rfl
  | .str _, _ => rfl
  | .undefined, h => by simp [undefFree] at h
  | .arr xs, h => by
    rw [jnorm, undefFree_jnormItems xs (by simpa [undefFree] using h)]
  | .obj fs, h => by
    rw [jnorm, undefFree_jnormFields fs (by simpa [undefFree] using h)]
theorem undefFree_jnormItems : ∀ xs : JItems,
    undefFreeItems xs = true → jnormItems xs = xs
  | .nil, _ => rfl
  | .cons v tl, h => by
    have h1 : undefFree v = true ∧ undefFreeItems tl = true := by
      simpa [undefFreeItems, Bool.and_eq_true] using h
    rw [jnormItems, undefFree_jnorm v h1.1, undefFree_jnormItems tl h1.2]
    rfl
theorem undefFree_jnormFields : ∀ fs : JFields,
    undefFreeFields fs = true → jnormFields fs = fs
  | .nil, _ => rfl
  | .cons k v tl, h => by
    have h1 : undefFree v = true ∧ undefFreeFields tl = true := by
      simpa [undefFreeFields, Bool.and_eq_true] using h
    rw [jnormFields, undefFree_jnorm v h1.1, undefFree_jnormFields tl h1.2]
end

/-- Decoding a serialized good record recovers it exactly: present fields
come back verbatim, a dropped (undefined) field reads back as `undefined`. -/
theorem decodeItem_encodeTask (t : Task) (hid : FieldRT t.id)
    (hti : FieldRT t.title) (b : Bool) (hdone : t.done = .bool b) :
    decodeItem (encodeTask t) = .ok t := by
  obtain ⟨i, ti, d⟩ := t
  simp only at hdone hid hti
  subst hdone
  rcases hid with hid | hid
  · rcases hti with hti | hti
    · simp [encodeTask, jnormFields, jnorm, hid, hti, decodeItem, getProp,
        JFields.get, toBool]
    · subst hti
      simp [encodeTask, jnormFields, jnorm, hid, decodeItem, getProp,
        JFields.get, toBool]
  · subst hid
    rcases hti with hti | hti
    · simp [encodeTask, jnormFields, jnorm, hti, decodeItem, getProp,
        JFields.get, toBool]
    · subst hti
      simp [encodeTask, jnormFields, jnorm, decodeItem, getProp,
        JFields.get, toBool]

/-- Decoding the serialized state of good records recovers the state. -/
theorem decodeItems_encodeState (st : List Task) (h : ∀ t ∈ st, GoodTask t) :
    decodeItems (JItems.ofList (st.map encodeTask)) = .ok st := by
  induction st with
  | nil => rfl
  | cons t ts ih =>
    obtain ⟨hid, hti, b, hdone⟩ := h t (by simp)
    have h1 := decodeItem_encodeTask t hid hti b hdone
    have h2 := ih (fun x hx => h x (by simp [hx]))
    simp [JItems.ofList, decodeItems, h1, h2]

/-- Constructing a store over a key that holds the serialized form of a good
state hydrates exactly that state. -/
theorem createStore_encodeState (w : World) (k : String) (st : List Task)
    (hw : w.store k = .value (encodeState st)) (h : ∀ t ∈ st, GoodTask t) :
    (createStore w k).2.state = st := by
  simp [createStore, hw, encodeState, decodeItems_encodeState st h]

/-- Looking a key up in an `undefined`-free field list yields an
`undefined`-free value or `undefined`. -/
theorem get_undefFree : ∀ (fs : JFields) (k : String),
    undefFreeFields fs = true →
    (undefFree (fs.get k) = true ∨ fs.get k = .undefined)
  | .nil, _, _ => .inr rfl
  | .cons key v tl, k, h => by
    have h1 : undefFree v = true ∧ undefFreeFields tl = true := by
      simpa [undefFreeFields, Bool.and_eq_true] using h
    by_cases hk : key = k
    · rw [JFields.get, if_pos hk]
      exact .inl h1.1
    · rw [JFields.get, if_neg hk]
      exact get_undefFree tl k h1.2

/-- A successful property read on an `undefined`-free value is round-trip
safe. -/
theorem getProp_FieldRT (v : JVal) (k : String) (r : JVal)
    (hv : undefFree v = true) (h : getProp v k = .ok r) : FieldRT r := by
  have hr : undefFree r = true ∨ r = .undefined := by
    cases v with
    | undefined => simp [undefFree] at hv
    | null => exact Except.noConfusion h
    | bool b =>
      injection h with h2
      exact .inr h2.symm
    | num n =>
      injection h with h2
      exact .inr h2.symm
    | str s =>
      injection h with h2
      exact .inr h2.symm
    | arr xs =>
      injection h with h2
      exact .inr h2.symm
    | obj fs =>
      injection h with h2
      rw [← h2]
      exact get_undefFree fs k (by simpa [undefFree] using hv)
  rcases hr with hr | hr
  · exact .inl (undefFree_jnorm r hr)
  · exact .inr hr

/-- Hydrating one `undefined`-free element yields a good record. -/
theorem decodeItem_good (v : JVal) (t : Task) (hv : undefFree v = true)
    (h : decodeItem v = .ok t) : GoodTask t := by
  cases hi : getProp v "id" with
  | error e => simp [decodeItem, hi] at h
  | ok i =>
    cases hti : getProp v "title" with
    | error e => simp [decodeItem, hi, hti] at h
    | ok ti =>
      cases hdn : getProp v "done" with
      | error e => simp [decodeItem, hi, hti, hdn] at h
      | ok d =>
        have ht : t = ⟨i, ti, .bool (toBool d)⟩ := by
          simp [decodeItem, hi, hti, hdn] at h
          exact h.symm
        subst ht
        exact ⟨getProp_FieldRT v "id" i hv hi,
          getProp_FieldRT v "title" ti hv hti, toBool d, rfl⟩

/-- Hydrating an `undefined`-free array yields good records throughout. -/
theorem decodeItems_good : ∀ (xs : JItems) (ts : List Task),
    undefFreeItems xs = true → decodeItems xs = .ok ts →
    ∀ t ∈ ts, GoodTask t
  | .nil, ts, _, hd => by
    simp [decodeItems] at hd
    subst hd
    simp
  | .cons v tl, ts, hx, hd => by
    have h1 : undefFree v = true ∧ undefFreeItems tl = true := by
      simpa [undefFreeItems, Bool.and_eq_true] using hx
    cases hv : decodeItem v with
    | error e => simp [decodeItems, hv] at hd
    | ok t =>
      cases htl : decodeItems tl with
      | error e => simp [decodeItems, hv, htl] at hd
      | ok ts' =>
        have hts : ts = t :: ts' := by
          simp [decodeItems, hv, htl] at hd
          exact hd.symm
        subst hts
        intro x hx'
        rcases List.mem_cons.mp hx' with rfl | hx'
        · exact decodeItem_good v x h1.1 hv
        · exact decodeItems_good tl ts' h1.2 htl x hx'

/-- When the key's content is `JSON.parse` output (hence `undefined`-free)
or absent/invalid, every hydrated record is good. -/
theorem createStore_good (w : World) (k : String)
    (hk : ∀ v, w.store k = .value v → undefFree v = true) :
    ∀ t ∈ (createStore w k).2.state, GoodTask t := by
  cases hw : w.store k with
  | absent => simp [createStore, hw]
  | invalid => simp [createStore, hw]
  | value v =>
    cases v with
    | arr xs =>
      cases hd : decodeItems xs with
      | ok ts =>
        have hnu : undefFreeItems xs = true := by
          simpa [undefFree] using hk (.arr xs) hw
        simpa [createStore, hw, hd] using decodeItems_good xs ts hnu hd
      | error e => simp [createStore, hw, hd]
    | undefined => simp [createStore, hw]
    | null => simp [createStore, hw]
    | bool b => simp [createStore, hw]
    | num n => simp [createStore, hw]
    | str s => simp [createStore, hw]
    | obj fs => simp [createStore, hw]

/-- Construction touches neither the storage, nor the write flag, and the
store closes over the given key. -/
theorem createStore_frame (w : World) (k : String) :
    (createStore w k).1.store = w.store ∧
    (createStore w k).1.writeOk = w.writeOk ∧
    (createStore w k).2.key = k := by
  cases hw : w.store k with
  | absent => simp [createStore, hw]
  | invalid => simp [createStore, hw]
  | value v =>
    cases v with
    | arr xs =>
      cases hd : decodeItems xs with
      | ok ts => simp [createStore, hw, hd]
      | error e => simp [createStore, hw, hd]
    | undefined => simp [createStore, hw]
    | null => simp [createStore, hw]
    | bool b => simp [createStore, hw]
    | num n => simp [createStore, hw]
    | str s => simp [createStore, hw]
    | obj fs => simp [createStore, hw]

/-- The hydrated state depends only on the content of the key. -/
theorem createStore_state_eq (w1 w2 : World) (k : String)
    (h : w1.store k = w2.store k) :
    (createStore w1 k).2.state = (createStore w2 k).2.state := by
  cases hw : w2.store k with
  | absent => simp [createStore, h, hw]
  | invalid => simp [createStore, h, hw]
  | value v =>
    cases v with
    | arr xs =>
      cases hd : decodeItems xs with
      | ok ts => simp [createStore, h, hw, hd]
      | error e => simp [createStore, h, hw, hd]
    | undefined => simp [createStore, h, hw]
    | null => simp [createStore, h, hw]
    | bool b => simp [createStore, h, hw]
    | num n => simp [createStore, h, hw]
    | str s => simp [createStore, h, hw]
    | obj fs => simp [createStore, h, hw]

/-- A whole session of `add` calls, threading world and store. -/
def addAll (p : World × Store) (inputs : List Task) : World × Store :=
  inputs.foldl (fun q t => ((addOp q.1 q.2 t).1, (addOp q.1 q.2 t).2.1)) p

/-- The session invariant behind the round trip: writes succeed, the store
still holds its key, the state is good, and rehydrating the current world at
the key reproduces the in-memory state. -/
def Inv (K : String) (p : World × Store) : Prop :=
  p.1.writeOk = true ∧ p.2.key = K ∧ (∀ t ∈ p.2.state, GoodTask t) ∧
  (createStore p.1 K).2.state = p.2.state

/-- One `add` of a round-trippable task preserves the session invariant. -/
theorem inv_add (K : String) (p : World × Store) (t : Task) (hInv : Inv K p)
    (ht : FieldRT t.id ∧ FieldRT t.title) :
    Inv K ((addOp p.1 p.2 t).1, (addOp p.1 p.2 t).2.1) := by
  obtain ⟨hw, hk, hg, _⟩ := hInv
  have hgood : ∀ x ∈ addSt p.2.state t, GoodTask x := by
    intro x hx
    rcases List.mem_append.mp hx with h1 | h1
    · exact hg x h1
    · rw [List.mem_singleton.mp h1]
      exact ⟨ht.1, ht.2, toBool t.done, rfl⟩
  have hstore : (addOp p.1 p.2 t).1.store K =
      .value (encodeState (addSt p.2.state t)) := by
    simp [addOp, persistW, hw, hk]
  refine ⟨by simp [addOp, persistW, hw], by simp [addOp, hk], ?_, ?_⟩
  · simpa [addOp] using hgood
  · have := createStore_encodeState (addOp p.1 p.2 t).1 K (addSt p.2.state t)
      hstore hgood
    simpa [addOp] using this

/-- The session invariant survives any sequence of `add` calls. -/
theorem inv_addAll (K : String) (inputs : List Task) :
    ∀ (p : World × Store), Inv K p →
    (∀ t ∈ inputs, FieldRT t.id ∧ FieldRT t.title) →
    Inv K (addAll p inputs) := by
  induction inputs with
  | nil => exact fun p h _ => h
  | cons t ts ih =>
    intro p hp hin
    have h1 := inv_add K p t hp (hin t (by simp))
    have h2 := ih _ h1 (fun x hx => hin x (by simp [hx]))
    simpa [addAll, List.foldl_cons] using h2

/-- C1: persistence round trip.  Construct a store over key `K` in a world
whose writes succeed and whose content at `K` is `JSON.parse` output (if
present), `add` any round-trippable tasks; a second store constructed over
the same key in the resulting world has a `list()` equal — in order and
content — to the first store's `list()`. -/
theorem claim_C1 (w : World) (K : String) (inputs : List Task)
    (hwrite : w.writeOk = true)
    (hk : ∀ v, w.store K = .value v → undefFree v = true)
    (hin : ∀ t ∈ inputs, FieldRT t.id ∧ FieldRT t.title) :
    listFn (createStore (addAll (createStore w K) inputs).1 K).2.state =
      listFn (addAll (createStore w K) inputs).2.state := by
  obtain ⟨hst, hwk, hkey⟩ := createStore_frame w K
  have hbase : Inv K (createStore w K) := by
    refine ⟨by rw [hwk]; exact hwrite, hkey, createStore_good w K hk, ?_⟩
    exact createStore_state_eq _ _ K (by rw [hst])
  have hfin := inv_addAll K inputs (createStore w K) hbase hin
  exact congrArg listFn hfin.2.2.2

/-- Witness for C1: a fresh key, two tasks with string fields added; the
second construction reproduces the session's final `list()`. -/
theorem claim_C1_witness :
    listFn (createStore (addAll (createStore ⟨fun _ => .absent, true, 0, 0⟩
        "k") [⟨.str "1", .str "alpha", .bool false⟩,
        ⟨.str "2", .str "beta", .bool true⟩]).1 "k").2.state =
      listFn (addAll (createStore ⟨fun _ => .absent, true, 0, 0⟩ "k")
        [⟨.str "1", .str "alpha", .bool false⟩,
        ⟨.str "2", .str "beta", .bool true⟩]).2.state :=
  claim_C1 ⟨fun _ => .absent, true, 0, 0⟩ "k"
    [⟨.str "1", .str "alpha", .bool false⟩, ⟨.str "2", .str "beta", .bool true⟩]
    rfl (fun _ hv => Stored.noConfusion hv) (by decide)

end App
